import Mathlib

/-!
Shallow embedding of `src/cong-base.cpp` (class `CongBase` from the
libsemigroups library): the abstract congruence-management core.

Modelling decisions:
* `word_type` is `List Nat`; the sentinel `UNDEFINED` class index is
  modelled by `Option Nat` (`none` = `UNDEFINED`).
* `FroidurePinBase*` references are modelled as object identifiers
  (`Nat`), `nullptr` as `none : Option Nat`.  `delete p` is recorded as
  an explicit deletion event (a list of deleted object ids) so that
  ownership/release behaviour is observable.
* The pure-virtual / overridable methods that subclasses supply
  (`word_to_class_index`, `const_word_to_class_index`,
  `is_quotient_obviously_infinite`, `nr_classes`, `quotient_impl`) are
  collected in a record `Strategy` that operations take as a parameter.
* The parent `FroidurePinBase` object's own methods (`size`,
  `factorisation`, `equal_to`) are modelled by the record `FroidurePin`.
* `LIBSEMIGROUPS_EXCEPTION` throws are modelled with `Except CongError`;
  blocking calls to `word_to_class_index` are counted so that
  "without invoking classification" is observable.
-/

namespace Libsemigroups

/-- `word_type`: a word is a sequence of generator indices. -/
abbrev Word := List Nat

/-- `congruence_type` from `cong-base.hpp`. -/
inductive CongruenceType
  | LEFT
  | RIGHT
  | TWOSIDED
deriving DecidableEq

/-- `CongBase::result_type`: the three-valued answer of `const_contains`. -/
inductive ResultType
  | TRUE
  | FALSE
  | UNKNOWN
deriving DecidableEq

/-- The error taxonomy of the spec; every constructor corresponds to a
`LIBSEMIGROUPS_EXCEPTION` site in `cong-base.cpp`, carrying the message. -/
inductive CongError
  | configurationError (msg : String)
  | validationError (msg : String)
  | consistencyError (msg : String)
deriving DecidableEq

/-- The interface of the parent `FroidurePinBase` object that
`CongBase` consumes: `size()`, `factorisation(w, pos)`, `equal_to(u, v)`. -/
structure FroidurePin where
  size : Nat
  factorisation : Nat → Word
  equal_to : Word → Word → Bool

/-- The subclass-supplied (virtual) operations consumed by `CongBase`:
the classification strategy.  `word_to_class_index` is the blocking
classification, `const_word_to_class_index` the non-blocking one
(`none` = `UNDEFINED`), `quotient_impl` returns the id of the quotient
object it builds. -/
structure Strategy where
  word_to_class_index : Word → Nat
  const_word_to_class_index : Word → Option Nat
  is_quotient_obviously_infinite : Bool
  nr_classes : Nat
  quotient_impl : Nat

/-- The state of a `CongBase` object: the fields initialised by the
constructor `CongBase::CongBase(congruence_type)` plus the `finished`
flag inherited from `Runner`. -/
structure CongBase where
  non_trivial_classes : List (List Word)
  init_ntc_done : Bool
  nrgens : Option Nat
  parent : Option Nat
  quotient : Option Nat
  type : CongruenceType
  gen_pairs : List (Word × Word)
  finished : Bool
deriving DecidableEq

/-- `CongBase::validate_letter(c)`: throws if no generators are defined,
otherwise reports whether `c < _nrgens`. -/
def validate_letter (s : CongBase) (c : Nat) : Except CongError Bool :=
  match s.nrgens with
  | none => Except.error (CongError.configurationError "no generators have been defined")
  | some n => Except.ok (decide (c < n))

/-- `CongBase::validate_word(w)`: checks each letter in order with
`validate_letter`, throwing on the first failure. -/
def validate_word (s : CongBase) : Word → Except CongError Unit
  | [] => Except.ok ()
  | l :: w =>
    match validate_letter s l with
    | Except.error e => Except.error e
    | Except.ok b =>
      if b then
        validate_word s w
      else
        Except.error (CongError.validationError
          ("invalid letter " ++ toString l ++ ", the valid range is [0, nr_generators)"))

/-- The value of `CongBase::contains` together with the number of
invocations of the (possibly blocking) `word_to_class_index`. -/
structure ContainsResult where
  answer : Bool
  classifications : Nat
deriving DecidableEq

/-- `CongBase::contains(w1, w2)`:
`return w1 == w2 || word_to_class_index(w1) == word_to_class_index(w2);`
with C++ short-circuit evaluation of `||`. -/
def contains (strat : Strategy) (w1 w2 : Word) : ContainsResult :=
  if w1 = w2 then
    ⟨true, 0⟩
  else
    ⟨decide (strat.word_to_class_index w1 = strat.word_to_class_index w2), 2⟩

/-- `CongBase::const_contains(u, v)`: three-valued non-blocking
membership test. -/
def const_contains (strat : Strategy) (s : CongBase) (u v : Word) : ResultType :=
  if strat.const_word_to_class_index u = none ∨ strat.const_word_to_class_index v = none then
    ResultType.UNKNOWN
  else if strat.const_word_to_class_index u = strat.const_word_to_class_index v then
    ResultType.TRUE
  else if s.finished then
    ResultType.FALSE
  else
    ResultType.UNKNOWN

/-- `CongBase::has_parent_semigroup()`. -/
def has_parent_semigroup (s : CongBase) : Bool :=
  s.parent.isSome

/-- Outcome of `CongBase::add_pair(u, v)`: the state after the call,
the list of object ids passed to a (non-null) `delete`, whether
`add_pair_impl` (the strategy notification) ran, and the exception if
one was thrown. -/
structure AddPairResult where
  state : CongBase
  deleted : List Nat
  notified : Bool
  err : Option CongError
deriving DecidableEq

/-- `CongBase::add_pair(u, v)`.  `parent_equal_to` models
`parent_semigroup()->equal_to`, consulted only when a parent is
attached.  On the recording path the code executes
`delete _quotient; _quotient = nullptr; set_finished(false);
add_pair_impl(u, v);` unconditionally. -/
def add_pair (parent_equal_to : Word → Word → Bool) (s : CongBase) (u v : Word) :
    AddPairResult :=
  match validate_word s u with
  | Except.error e => ⟨s, [], false, some e⟩
  | Except.ok _ =>
    match validate_word s v with
    | Except.error e => ⟨s, [], false, some e⟩
    | Except.ok _ =>
      if u = v then
        ⟨s, [], false, none⟩
      else if has_parent_semigroup s && parent_equal_to u v then
        ⟨s, [], false, none⟩
      else
        ⟨{ s with
            gen_pairs := s.gen_pairs ++ [(u, v)],
            quotient := none,
            finished := false },
          s.quotient.toList, true, none⟩

/-- `CongBase::set_parent_semigroup(prnt)` (the release builds, where
`LIBSEMIGROUPS_ASSERT` is a no-op): early return when the same
reference is attached again; otherwise record the parent and, when the
generating-pair list is empty, alias the quotient to it. -/
def set_parent_semigroup (s : CongBase) (prnt : Nat) : CongBase :=
  if s.parent = some prnt then
    s
  else
    { s with
        parent := some prnt,
        quotient := if s.gen_pairs.isEmpty then some prnt else s.quotient }

/-- `CongBase::quotient_semigroup()`: returns the quotient object id and
the state after the call (the cache may be filled in). -/
def quotient_semigroup (strat : Strategy) (s : CongBase) :
    Except CongError (Nat × CongBase) :=
  if s.type ≠ CongruenceType.TWOSIDED then
    Except.error (CongError.consistencyError "the congruence must be two-sided")
  else if strat.is_quotient_obviously_infinite then
    Except.error (CongError.consistencyError
      "cannot find the quotient semigroup, it is infinite")
  else
    match s.quotient with
    | some q => Except.ok (q, s)
    | none =>
      Except.ok (strat.quotient_impl, { s with quotient := some strat.quotient_impl })

/-- `CongBase::~CongBase()`: `if (_parent != _quotient) delete _quotient;`.
Returns the list of object ids passed to a non-null `delete`. -/
def congbase_destructor (s : CongBase) : List Nat :=
  if s.parent ≠ s.quotient then s.quotient.toList else []

/-- The bucket-filling loop body of `init_non_trivial_classes`:
`_parent->factorisation(w, pos);
 _non_trivial_classes[word_to_class_index(w)].push_back(w);`. -/
def ntc_step (strat : Strategy) (prnt : FroidurePin)
    (buckets : List (List Word)) (pos : Nat) : List (List Word) :=
  let w := prnt.factorisation pos
  buckets.set (strat.word_to_class_index w)
    (buckets.getD (strat.word_to_class_index w) [] ++ [w])

/-- The exhaustive scan of `init_non_trivial_classes`: start from
`nr_classes()` empty buckets and run the loop over every position in
`[0, _parent->size())`. -/
def ntc_scan (strat : Strategy) (prnt : FroidurePin) : List (List Word) :=
  (List.range prnt.size).foldl (ntc_step strat prnt)
    (List.replicate strat.nr_classes [])

/-- `CongBase::init_non_trivial_classes()`: early return when
`_init_ntc_done`; throws when no parent is attached; otherwise performs
the scan and erases every bucket of size at most 1.  The boolean in the
result records whether the scan actually ran. -/
def init_non_trivial_classes (strat : Strategy) (prnt : FroidurePin) (s : CongBase) :
    Except CongError (CongBase × Bool) :=
  if s.init_ntc_done then
    Except.ok (s, false)
  else if s.parent = none then
    Except.error (CongError.consistencyError
      "there is no parent semigroup in which to find the non-trivial classes")
  else
    Except.ok
      ({ s with
          init_ntc_done := true,
          non_trivial_classes :=
            (ntc_scan strat prnt).filter (fun klass => decide (1 < klass.length)) },
        true)

/-- `CongBase::nr_non_trivial_classes()`: runs
`init_non_trivial_classes` and returns `_non_trivial_classes.size()`. -/
def nr_non_trivial_classes (strat : Strategy) (prnt : FroidurePin) (s : CongBase) :
    Except CongError (Nat × CongBase) :=
  match init_non_trivial_classes strat prnt s with
  | Except.error e => Except.error e
  | Except.ok (t, _) => Except.ok (t.non_trivial_classes.length, t)

/-- `CongBase::congruence_type_to_string`. -/
def congruence_type_to_string : CongruenceType → String
  | CongruenceType.TWOSIDED => "two-sided"
  | CongruenceType.LEFT => "left"
  | CongruenceType.RIGHT => "right"

/-! Concrete fixtures used to instantiate theorems on explicit inputs. -/

/-- A strategy whose non-blocking classification is everywhere undefined
(the `CongBase` default `const_word_to_class_index`). -/
def stratA : Strategy :=
  { word_to_class_index := fun w => w.length % 2,
    const_word_to_class_index := fun _ => none,
    is_quotient_obviously_infinite := false,
    nr_classes := 2,
    quotient_impl := 99 }

/-- A strategy whose non-blocking classification is everywhere defined
(class index = word length mod 2). -/
def stratB : Strategy :=
  { word_to_class_index := fun w => w.length % 2,
    const_word_to_class_index := fun w => some (w.length % 2),
    is_quotient_obviously_infinite := false,
    nr_classes := 2,
    quotient_impl := 99 }

/-- A freshly constructed two-sided `CongBase` with no generators set:
exactly the fields initialised by `CongBase::CongBase(TWOSIDED)`. -/
def sNoGens : CongBase :=
  { non_trivial_classes := [],
    init_ntc_done := false,
    nrgens := none,
    parent := none,
    quotient := none,
    type := CongruenceType.TWOSIDED,
    gen_pairs := [],
    finished := false }

/-- A two-sided `CongBase` with 2 generators and nothing else done. -/
def sTwoGens : CongBase := { sNoGens with nrgens := some 2 }

/-! Theorems. -/

/-- C1: `const_contains(u, v)` returns `UNKNOWN` if the non-blocking
class index of either word is `UNDEFINED`; otherwise it returns `TRUE`
if the two class indices are equal (regardless of the finished flag);
otherwise, with both indices defined and different, it returns `FALSE`
if the computation is finished and `UNKNOWN` if it is not. -/
theorem const_contains_decision_table (strat : Strategy) (s : CongBase) (u v : Word) :
    ((strat.const_word_to_class_index u = none ∨
        strat.const_word_to_class_index v = none) →
      const_contains strat s u v = ResultType.UNKNOWN) ∧
    (∀ i j, strat.const_word_to_class_index u = some i →
      strat.const_word_to_class_index v = some j →
      ((i = j → const_contains strat s u v = ResultType.TRUE) ∧
        (i ≠ j → s.finished = true → const_contains strat s u v = ResultType.FALSE) ∧
        (i ≠ j → s.finished = false →
          const_contains strat s u v = ResultType.UNKNOWN))) := by
  constructor
  · intro h
    unfold const_contains
    rw [if_pos h]
  · intro i j hu hv
    refine ⟨?_, ?_, ?_⟩
    · intro hij
      subst hij
      simp [const_contains, hu, hv]
    · intro hij hfin
      simp [const_contains, hu, hv, hfin, hij]
    · intro hij hfin
      simp [const_contains, hu, hv, hfin, hij]

/-- Witness for C1: each row of the decision table realised on a
concrete strategy and state. -/
theorem const_contains_decision_table_w :
    const_contains stratA sNoGens [] [] = ResultType.UNKNOWN ∧
    const_contains stratB sNoGens [] [] = ResultType.TRUE ∧
    const_contains stratB { sNoGens with finished := true } [] [0] = ResultType.FALSE ∧
    const_contains stratB sNoGens [] [0] = ResultType.UNKNOWN := by
  refine ⟨?_, ?_, ?_, ?_⟩
  · exact (const_contains_decision_table stratA sNoGens [] []).1 (Or.inl rfl)
  · exact ((const_contains_decision_table stratB sNoGens [] []).2 0 0 rfl rfl).1 rfl
  · exact ((const_contains_decision_table stratB { sNoGens with finished := true }
      [] [0]).2 0 1 rfl rfl).2.1 (by decide) rfl
  · exact ((const_contains_decision_table stratB sNoGens
      [] [0]).2 0 1 rfl rfl).2.2 (by decide) rfl

/-- C9: for every word `w`, `contains(w, w)` returns `true` without
invoking the (possibly blocking) classification. -/
theorem contains_diagonal (strat : Strategy) (w : Word) :
    contains strat w w = ⟨true, 0⟩ := by
  simp [contains]

/-- C3 counterexample: in the state `sNoGens` the word `[5]` fails
validation (the generator count is unset), yet `contains([5], [5])`
returns the truth value `true` with no classification and no error —
`contains` performs no validation at all, contrary to the claim. -/
theorem contains_skips_validation_cx :
    validate_word sNoGens [5] =
      Except.error (CongError.configurationError "no generators have been defined") ∧
    contains stratA [5] [5] = ⟨true, 0⟩ := by
  exact ⟨rfl, by simp [contains]⟩

/-- C3 amended: `contains(w1, w2)` performs no validation and never
fails: whatever the core's state (even with the generator count unset
or letters out of range), it returns `true` exactly when the words are
literally equal or their blocking class indices agree, classifying only
when the words differ. -/
theorem contains_total_no_validation (strat : Strategy) (w1 w2 : Word) :
    contains strat w1 w2 =
      ⟨decide (w1 = w2) ||
          decide (strat.word_to_class_index w1 = strat.word_to_class_index w2),
        if w1 = w2 then 0 else 2⟩ := by
  by_cases h : w1 = w2
  · subst h
    simp [contains]
  · simp [contains, h]

/-- C4 counterexample: with the generator count unset, `validate_word`
accepts the empty word (the per-letter loop never runs, so the
generator-count check is never reached), and `add_pair([], [])`
succeeds instead of failing with a `ConfigurationError`. -/
theorem validate_word_empty_cx :
    sNoGens.nrgens = none ∧
    validate_word sNoGens [] = Except.ok () ∧
    (add_pair (fun _ _ => false) sNoGens [] []).err = none :=
  ⟨rfl, rfl, rfl⟩

/-- C4 amended: for every NONEMPTY word `w`, `validate_word w` — and
`add_pair u v` whenever `u` or `v` is nonempty — fails with a
`ConfigurationError` when the generator count has not been set, the
generator-count check preceding any per-letter range check; the empty
word always validates successfully. -/
theorem validate_word_nogens (s : CongBase) (pe : Word → Word → Bool)
    (w u v : Word) (hg : s.nrgens = none) :
    (w ≠ [] → validate_word s w =
      Except.error (CongError.configurationError "no generators have been defined")) ∧
    (u ≠ [] ∨ v ≠ [] → (add_pair pe s u v).err =
      some (CongError.configurationError "no generators have been defined")) := by
  have hval : ∀ x : Word, x ≠ [] → validate_word s x =
      Except.error (CongError.configurationError "no generators have been defined") := by
    intro x hx
    cases x with
    | nil => exact absurd rfl hx
    | cons l t => simp [validate_word, validate_letter, hg]
  refine ⟨hval w, ?_⟩
  intro huv
  cases u with
  | nil =>
    rcases huv with h | h
    · exact absurd rfl h
    · show (add_pair pe s [] v).err = _
      simp only [add_pair, validate_word, hval v h]
  | cons l t =>
    show (add_pair pe s (l :: t) v).err = _
    simp only [add_pair, hval (l :: t) (by simp)]

/-- Witness for C4's amended theorem at a concrete state and words. -/
theorem validate_word_nogens_w :
    sNoGens.nrgens = none ∧
    validate_word sNoGens [0] =
      Except.error (CongError.configurationError "no generators have been defined") ∧
    (add_pair (fun _ _ => false) sNoGens [0] []).err =
      some (CongError.configurationError "no generators have been defined") := by
  have h := validate_word_nogens sNoGens (fun _ _ => false) [0] [0] [] rfl
  exact ⟨rfl, h.1 (by decide), h.2 (Or.inl (by decide))⟩

/-- C2 (the code violates the ownership invariant): after a parent
(object id 7) is attached with an empty pair list, the quotient aliases
the parent (`_quotient == _parent == 7`, unowned); yet a subsequent
successful `add_pair([0], [1])` executes its unconditional
`delete _quotient`, deleting the aliased, unowned object 7 — in
contrast to the destructor, which guards with `_parent != _quotient`. -/
theorem add_pair_deletes_aliased_quotient :
    (set_parent_semigroup sTwoGens 7).quotient = some 7 ∧
    (set_parent_semigroup sTwoGens 7).parent = some 7 ∧
    (add_pair (fun _ _ => false) (set_parent_semigroup sTwoGens 7) [0] [1]).err = none ∧
    (add_pair (fun _ _ => false) (set_parent_semigroup sTwoGens 7) [0] [1]).deleted = [7] ∧
    congbase_destructor (set_parent_semigroup sTwoGens 7) = [] :=
  ⟨rfl, rfl, rfl, rfl, rfl⟩

/-- C5: `quotient_semigroup()` throws a `ConsistencyError` whenever the
kind is not two-sided (regardless of any completion state) or whenever
`is_quotient_obviously_infinite()` holds; otherwise, with an empty
cache it builds the quotient via the strategy and caches it, a further
call returning the cached reference, and with a filled cache it returns
the cached reference unchanged; a successful recording `add_pair`
clears the cache. -/
theorem quotient_semigroup_spec (strat : Strategy) (s : CongBase) :
    (s.type ≠ CongruenceType.TWOSIDED →
      quotient_semigroup strat s =
        Except.error (CongError.consistencyError "the congruence must be two-sided")) ∧
    (s.type = CongruenceType.TWOSIDED → strat.is_quotient_obviously_infinite = true →
      quotient_semigroup strat s =
        Except.error (CongError.consistencyError
          "cannot find the quotient semigroup, it is infinite")) ∧
    (s.type = CongruenceType.TWOSIDED → strat.is_quotient_obviously_infinite = false →
      ((s.quotient = none →
          quotient_semigroup strat s =
            Except.ok (strat.quotient_impl,
              { s with quotient := some strat.quotient_impl }) ∧
          quotient_semigroup strat { s with quotient := some strat.quotient_impl } =
            Except.ok (strat.quotient_impl,
              { s with quotient := some strat.quotient_impl })) ∧
        (∀ q, s.quotient = some q →
          quotient_semigroup strat s = Except.ok (q, s)))) ∧
    (∀ pe u v, (add_pair pe s u v).notified = true →
      (add_pair pe s u v).state.quotient = none) := by
  refine ⟨?_, ?_, ?_, ?_⟩
  · intro h
    unfold quotient_semigroup
    rw [if_pos h]
  · intro ht hinf
    simp [quotient_semigroup, ht, hinf]
  · intro ht hinf
    constructor
    · intro hq
      constructor
      · simp [quotient_semigroup, ht, hinf, hq]
      · simp [quotient_semigroup, ht, hinf]
    · intro q hq
      simp [quotient_semigroup, ht, hinf, hq]
  · intro pe u v
    unfold add_pair
    cases validate_word s u with
    | error e => intro h; simp at h
    | ok uu =>
      cases validate_word s v with
      | error e => intro h; simp at h
      | ok vv =>
        by_cases huv : u = v
        · rw [if_pos huv]; intro h; simp at h
        · rw [if_neg huv]
          by_cases hp : (has_parent_semigroup s && pe u v) = true
          · rw [if_pos hp]; intro h; simp at h
          · rw [if_neg hp]; intro h; rfl

/-- Witness for C5: each branch realised concretely — a left congruence
fails, an obviously-infinite quotient fails, an empty cache builds and
caches object 99, a filled cache returns its object, and `add_pair`
clears the cache. -/
theorem quotient_semigroup_spec_w :
    quotient_semigroup stratA { sTwoGens with type := CongruenceType.LEFT } =
      Except.error (CongError.consistencyError "the congruence must be two-sided") ∧
    quotient_semigroup { stratA with is_quotient_obviously_infinite := true } sTwoGens =
      Except.error (CongError.consistencyError
        "cannot find the quotient semigroup, it is infinite") ∧
    quotient_semigroup stratA sTwoGens =
      Except.ok (99, { sTwoGens with quotient := some 99 }) ∧
    quotient_semigroup stratA { sTwoGens with quotient := some 99 } =
      Except.ok (99, { sTwoGens with quotient := some 99 }) ∧
    (add_pair (fun _ _ => false) sTwoGens [0] [1]).state.quotient = none := by
  refine ⟨?_, ?_, ?_, ?_, ?_⟩
  · exact (quotient_semigroup_spec stratA
      { sTwoGens with type := CongruenceType.LEFT }).1 (by decide)
  · exact (quotient_semigroup_spec
      { stratA with is_quotient_obviously_infinite := true } sTwoGens).2.1 rfl rfl
  · exact (((quotient_semigroup_spec stratA sTwoGens).2.2.1 rfl rfl).1 rfl).1
  · exact (((quotient_semigroup_spec stratA sTwoGens).2.2.1 rfl rfl).1 rfl).2
  · exact (quotient_semigroup_spec stratA sTwoGens).2.2.2
      (fun _ _ => false) [0] [1] rfl

/-- C6: attaching a parent while the generating-pair list is empty sets
the quotient reference equal to the parent reference; a subsequent
`quotient_semigroup()` call (two-sided, not obviously infinite) returns
that very reference, and the destructor does not release it. -/
theorem set_parent_aliasing (strat : Strategy) (s : CongBase) (p : Nat)
    (hemp : s.gen_pairs = []) (hnew : s.parent ≠ some p) :
    (set_parent_semigroup s p).parent = some p ∧
    (set_parent_semigroup s p).quotient = some p ∧
    (s.type = CongruenceType.TWOSIDED → strat.is_quotient_obviously_infinite = false →
      quotient_semigroup strat (set_parent_semigroup s p) =
        Except.ok (p, set_parent_semigroup s p)) ∧
    congbase_destructor (set_parent_semigroup s p) = [] := by
  have h1 : set_parent_semigroup s p =
      { s with parent := some p, quotient := some p } := by
    unfold set_parent_semigroup
    rw [if_neg hnew]
    simp [hemp]
  rw [h1]
  refine ⟨rfl, rfl, ?_, ?_⟩
  · intro ht hinf
    simp [quotient_semigroup, ht, hinf]
  · simp [congbase_destructor]

/-- Witness for C6 on a concrete core and parent object 7. -/
theorem set_parent_aliasing_w :
    (set_parent_semigroup sTwoGens 7).parent = some 7 ∧
    (set_parent_semigroup sTwoGens 7).quotient = some 7 ∧
    quotient_semigroup stratA (set_parent_semigroup sTwoGens 7) =
      Except.ok (7, set_parent_semigroup sTwoGens 7) ∧
    congbase_destructor (set_parent_semigroup sTwoGens 7) = [] := by
  have h := set_parent_aliasing stratA sTwoGens 7 rfl (by decide)
  exact ⟨h.1, h.2.1, h.2.2.1 rfl rfl, h.2.2.2⟩

/-- C10: `add_pair` is atomic on validation failure — when it reports
an error, the state is unchanged, no object was deleted, and the
strategy was not notified. -/
theorem add_pair_atomic_on_error (pe : Word → Word → Bool) (s : CongBase) (u v : Word)
    (e : CongError) :
    (add_pair pe s u v).err = some e →
      (add_pair pe s u v).state = s ∧
      (add_pair pe s u v).deleted = [] ∧
      (add_pair pe s u v).notified = false := by
  unfold add_pair
  cases validate_word s u with
  | error e2 => intro h; exact ⟨rfl, rfl, rfl⟩
  | ok uu =>
    cases validate_word s v with
    | error e2 => intro h; exact ⟨rfl, rfl, rfl⟩
    | ok vv =>
      by_cases huv : u = v
      · rw [if_pos huv]; intro h; simp at h
      · rw [if_neg huv]
        by_cases hp : (has_parent_semigroup s && pe u v) = true
        · rw [if_pos hp]; intro h; simp at h
        · rw [if_neg hp]; intro h; simp at h

/-- Witness for C10: a failing `add_pair` (generator count unset) at a
concrete input leaves the concrete state untouched. -/
theorem add_pair_atomic_on_error_w :
    (add_pair (fun _ _ => false) sNoGens [1] [2]).state = sNoGens ∧
    (add_pair (fun _ _ => false) sNoGens [1] [2]).deleted = [] ∧
    (add_pair (fun _ _ => false) sNoGens [1] [2]).notified = false :=
  add_pair_atomic_on_error (fun _ _ => false) sNoGens [1] [2]
    (CongError.configurationError "no generators have been defined") rfl

/-- A concrete parent semigroup with five elements whose factorisations
are the single-letter words `[0] … [4]`. -/
def fpB : FroidurePin :=
  { size := 5,
    factorisation := fun pos => [pos],
    equal_to := fun u v => decide (u = v) }

/-- A core whose non-trivial-class cache is already computed. -/
def sDone : CongBase :=
  { sTwoGens with
      parent := some 7,
      init_ntc_done := true,
      non_trivial_classes := [[[0], [1]]] }

/-- C8: `init_non_trivial_classes` is idempotent — once the done flag is
set, every further call (with any strategy and any parent data, hence
without rescanning or re-invoking classification) returns the identical
cached grouping and class count; and no later operation (`add_pair`,
`set_parent_semigroup`, a successful `quotient_semigroup`) ever touches
the cache or the done flag. -/
theorem ntc_idempotent (strat strat2 : Strategy) (prnt prnt2 : FroidurePin)
    (s : CongBase) (pe : Word → Word → Bool) (u v : Word) (p : Nat) :
    (s.init_ntc_done = true →
      init_non_trivial_classes strat prnt s = Except.ok (s, false)) ∧
    (∀ t b, init_non_trivial_classes strat prnt s = Except.ok (t, b) →
      init_non_trivial_classes strat2 prnt2 t = Except.ok (t, false) ∧
      nr_non_trivial_classes strat2 prnt2 t =
        Except.ok (t.non_trivial_classes.length, t)) ∧
    ((add_pair pe s u v).state.init_ntc_done = s.init_ntc_done ∧
      (add_pair pe s u v).state.non_trivial_classes = s.non_trivial_classes) ∧
    ((set_parent_semigroup s p).init_ntc_done = s.init_ntc_done ∧
      (set_parent_semigroup s p).non_trivial_classes = s.non_trivial_classes) ∧
    (∀ q t, quotient_semigroup strat s = Except.ok (q, t) →
      t.init_ntc_done = s.init_ntc_done ∧
      t.non_trivial_classes = s.non_trivial_classes) := by
  refine ⟨?_, ?_, ?_, ?_, ?_⟩
  · intro h
    simp [init_non_trivial_classes, h]
  · intro t b hok
    have hdone : t.init_ntc_done = true := by
      unfold init_non_trivial_classes at hok
      by_cases hd : s.init_ntc_done = true
      · rw [if_pos hd] at hok
        simp only [Except.ok.injEq, Prod.mk.injEq] at hok
        rw [← hok.1, hd]
      · rw [if_neg hd] at hok
        by_cases hp : s.parent = none
        · rw [if_pos hp] at hok
          exact absurd hok (by simp)
        · rw [if_neg hp] at hok
          simp only [Except.ok.injEq, Prod.mk.injEq] at hok
          rw [← hok.1]
    constructor
    · simp [init_non_trivial_classes, hdone]
    · simp [nr_non_trivial_classes, init_non_trivial_classes, hdone]
  · unfold add_pair
    cases validate_word s u with
    | error e => exact ⟨rfl, rfl⟩
    | ok uu =>
      cases validate_word s v with
      | error e => exact ⟨rfl, rfl⟩
      | ok vv =>
        by_cases huv : u = v
        · rw [if_pos huv]; exact ⟨rfl, rfl⟩
        · rw [if_neg huv]
          by_cases hp : (has_parent_semigroup s && pe u v) = true
          · rw [if_pos hp]; exact ⟨rfl, rfl⟩
          · rw [if_neg hp]; exact ⟨rfl, rfl⟩
  · unfold set_parent_semigroup
    by_cases h : s.parent = some p
    · rw [if_pos h]; exact ⟨rfl, rfl⟩
    · rw [if_neg h]; exact ⟨rfl, rfl⟩
  · intro q t hok
    unfold quotient_semigroup at hok
    by_cases h1 : s.type ≠ CongruenceType.TWOSIDED
    · rw [if_pos h1] at hok
      exact absurd hok (by simp)
    · rw [if_neg h1] at hok
      by_cases h2 : strat.is_quotient_obviously_infinite = true
      · rw [if_pos h2] at hok
        exact absurd hok (by simp)
      · rw [if_neg h2] at hok
        cases hq : s.quotient with
        | some qq =>
          rw [hq] at hok
          simp only [Except.ok.injEq, Prod.mk.injEq] at hok
          rw [← hok.2]
          exact ⟨rfl, rfl⟩
        | none =>
          rw [hq] at hok
          simp only [Except.ok.injEq, Prod.mk.injEq] at hok
          rw [← hok.2]
          exact ⟨rfl, rfl⟩

/-- Witness for C8: on a core with the cache already computed, repeated
calls — with a different strategy the second time — return the identical
cached grouping and class count. -/
theorem ntc_idempotent_w :
    init_non_trivial_classes stratA fpB sDone = Except.ok (sDone, false) ∧
    init_non_trivial_classes stratB fpB sDone = Except.ok (sDone, false) ∧
    nr_non_trivial_classes stratB fpB sDone = Except.ok (1, sDone) := by
  have h := ntc_idempotent stratA stratB fpB fpB sDone (fun _ _ => false) [] [] 3
  have h1 := h.1 rfl
  refine ⟨h1, (h.2.1 sDone false h1).1, ?_⟩
  exact (h.2.1 sDone false h1).2

/-- The spec's example classification on `fpB`: positions 0 and 1 share
class 0, position 2 is alone in class 1, positions 3 and 4 share
class 2. -/
def stratC : Strategy :=
  { word_to_class_index := fun w =>
      if w = [2] then 1 else if w = [3] then 2 else if w = [4] then 2 else 0,
    const_word_to_class_index := fun _ => none,
    is_quotient_obviously_infinite := false,
    nr_classes := 3,
    quotient_impl := 99 }

/-- The bucket of class `c` as described by the spec: the factorised
words of the positions `[0, size)`, in position order, restricted to
the words classified into `c`. -/
def class_bucket (strat : Strategy) (prnt : FroidurePin) (c : Nat) : List Word :=
  ((List.range prnt.size).map prnt.factorisation).filter
    (fun w => decide (strat.word_to_class_index w = c))

theorem ntc_step_length (strat : Strategy) (prnt : FroidurePin)
    (B : List (List Word)) (pos : Nat) :
    (ntc_step strat prnt B pos).length = B.length := by
  unfold ntc_step
  simp

theorem ntc_foldl_length (strat : Strategy) (prnt : FroidurePin)
    (l : List Nat) (B : List (List Word)) :
    (l.foldl (ntc_step strat prnt) B).length = B.length := by
  induction l generalizing B with
  | nil => rfl
  | cons pos t ih =>
    rw [List.foldl_cons, ih, ntc_step_length]

theorem ntc_step_getD (strat : Strategy) (prnt : FroidurePin)
    (B : List (List Word)) (pos c : Nat) (hc : c < B.length) :
    (ntc_step strat prnt B pos).getD c [] =
      if strat.word_to_class_index (prnt.factorisation pos) = c then
        B.getD c [] ++ [prnt.factorisation pos]
      else
        B.getD c [] := by
  unfold ntc_step
  dsimp only
  by_cases h : strat.word_to_class_index (prnt.factorisation pos) = c
  · rw [if_pos h, h]
    have hlen : c <
        (B.set c (B.getD c [] ++ [prnt.factorisation pos])).length := by
      simpa using hc
    rw [List.getD_eq_getElem _ _ hlen, List.getElem_set_self hlen]
  · rw [if_neg h]
    have hlen : c <
        (B.set (strat.word_to_class_index (prnt.factorisation pos))
          (B.getD (strat.word_to_class_index (prnt.factorisation pos)) []
            ++ [prnt.factorisation pos])).length := by
      simpa using hc
    rw [List.getD_eq_getElem _ _ hlen, List.getD_eq_getElem _ _ hc]
    rw [List.getElem_set_of_ne h]

theorem ntc_foldl_getD (strat : Strategy) (prnt : FroidurePin)
    (l : List Nat) (B : List (List Word)) (c : Nat) (hc : c < B.length) :
    (l.foldl (ntc_step strat prnt) B).getD c [] =
      B.getD c [] ++
        ((l.map prnt.factorisation).filter
          (fun w => decide (strat.word_to_class_index w = c))) := by
  induction l generalizing B with
  | nil => simp
  | cons pos t ih =>
    rw [List.foldl_cons]
    have hlen : c < (ntc_step strat prnt B pos).length := by
      rw [ntc_step_length]
      exact hc
    rw [ih _ hlen, ntc_step_getD _ _ _ _ _ hc]
    by_cases h : strat.word_to_class_index (prnt.factorisation pos) = c
    · simp [h]
    · simp [h]

theorem ntc_scan_eq (strat : Strategy) (prnt : FroidurePin) :
    ntc_scan strat prnt =
      (List.range strat.nr_classes).map (class_bucket strat prnt) := by
  have hlen : (ntc_scan strat prnt).length = strat.nr_classes := by
    simp [ntc_scan, ntc_foldl_length]
  apply List.ext_getElem
  · rw [hlen]
    simp
  · intro i h1 h2
    have hi : i < strat.nr_classes := hlen ▸ h1
    have hc : i < (List.replicate strat.nr_classes ([] : List Word)).length := by
      simpa using hi
    have hrep : (List.replicate strat.nr_classes ([] : List Word)).getD i [] = [] := by
      rw [List.getD_eq_getElem _ _ hc]
      simp
    have hgd := ntc_foldl_getD strat prnt (List.range prnt.size) _ i hc
    rw [← List.getD_eq_getElem (ntc_scan strat prnt) [] h1]
    rw [ntc_scan, hgd, hrep]
    simp [class_bucket]

/-- C7: on a first request with a parent attached (and, matching the
code's assertion, every class index below `nr_classes`),
`init_non_trivial_classes` scans every position of `[0, parent.size)`,
buckets the factorised word of each position by its class index, and
keeps exactly the buckets of size ≥ 2: the result is the class-indexed
family of position-ordered groups restricted to groups with at least
two members, and every surviving group has at least two members. -/
theorem init_non_trivial_classes_spec (strat : Strategy) (prnt : FroidurePin)
    (s : CongBase) (hnd : s.init_ntc_done = false) (hp : s.parent ≠ none)
    (hidx : ∀ pos, pos < prnt.size →
      strat.word_to_class_index (prnt.factorisation pos) < strat.nr_classes) :
    init_non_trivial_classes strat prnt s =
      Except.ok
        ({ s with
            init_ntc_done := true,
            non_trivial_classes :=
              ((List.range strat.nr_classes).map (class_bucket strat prnt)).filter
                (fun klass => decide (1 < klass.length)) },
          true) ∧
    (∀ klass ∈
        ((List.range strat.nr_classes).map (class_bucket strat prnt)).filter
          (fun klass => decide (1 < klass.length)),
      2 ≤ klass.length) := by
  constructor
  · unfold init_non_trivial_classes
    rw [hnd]
    rw [if_neg (by simp)]
    rw [if_neg hp]
    rw [ntc_scan_eq]
  · intro klass hk
    have := (List.mem_filter.mp hk).2
    simp at this
    omega

/-- Witness for C7: the spec's example — a parent of size 5 whose
elements factorise to `[0] … [4]`, classified as sets of positions
0 and 1, 2 alone, and 3 and 4 — yields exactly the two groups
`[[0], [1]]` and `[[3], [4]]`, the singleton `[[2]]` excluded. -/
theorem init_non_trivial_classes_spec_w :
    init_non_trivial_classes stratC fpB { sTwoGens with parent := some 7 } =
      Except.ok
        ({ sTwoGens with
            parent := some 7,
            init_ntc_done := true,
            non_trivial_classes := [[[0], [1]], [[3], [4]]] },
          true) := by
  have h := init_non_trivial_classes_spec stratC fpB
    { sTwoGens with parent := some 7 } rfl (by simp)
    (by
      intro pos hpos
      have h5 : pos < 5 := hpos
      interval_cases pos <;> decide)
  rw [h.1]
  rfl

end Libsemigroups
